import Mathlib

/-
  Shallow embedding of `node/src/manager/commands/fix_block.rs`:
  the block-cache fix tool (by_hash / by_number / by_range / truncate),
  its range grammar (`mod ranges`), its upstream fetcher and its
  structural diff step.

  External collaborators (the postgres `ChainStore`, the
  `EthereumAdapter` JSON-RPC client, the `json_structural_diff` crate
  and the terminal) are modelled as explicit parameters, bundled in
  `Env`.  Machine integers (`i32`) are modelled as `Int` with the
  i32 bounds stated explicitly where overflow matters.
-/

namespace FixBlock

/-- A block hash as the list of its decoded bytes (`H256` holds exactly 32). -/
abbrev H256 := List Nat

/-- Model of `serde_json::Value`: an order-preserving structured document. -/
inductive Json where
  | null : Json
  | bool (b : Bool) : Json
  | num (n : Int) : Json
  | str (s : String) : Json
  | arr (items : List Json) : Json
  | obj (fields : List (String × Json)) : Json
deriving Repr

/-- Key lookup in a JSON object, first match wins (serde maps hold unique keys). -/
def Json.findKey (k : String) : List (String × Json) → Option Json
  | [] => none
  | (k', v) :: rest => if k = k' then some v else Json.findKey k rest

mutual

/-- Model of `serde_json::Value::eq`: structural equality; array order is
significant, object key order is not (maps compare by key lookup). -/
def Json.beq : Json → Json → Bool
  | .null, .null => true
  | .bool a, .bool b => a == b
  | .num a, .num b => a == b
  | .str a, .str b => a == b
  | .arr a, .arr b => Json.beqList a b
  | .obj a, .obj b => a.length == b.length && Json.beqObj a b
  | _, _ => false

/-- Elementwise equality of JSON arrays (order significant). -/
def Json.beqList : List Json → List Json → Bool
  | [], [] => true
  | x :: xs, y :: ys => Json.beq x y && Json.beqList xs ys
  | _, _ => false

/-- Every field of the first object is present with an equal value in the second. -/
def Json.beqObj : List (String × Json) → List (String × Json) → Bool
  | [], _ => true
  | (k, v) :: rest, b =>
    (match Json.findKey k b with
     | some w => Json.beq v w
     | none => false) && Json.beqObj rest b

end

/- ===== by_hash input decoding (fix_block.rs lines 28-33) ===== -/

/-- Value of one hexadecimal digit, as `hex::decode` accepts them. -/
def hexVal (c : Char) : Option Nat :=
  if '0' ≤ c ∧ c ≤ '9' then some (c.toNat - '0'.toNat)
  else if 'a' ≤ c ∧ c ≤ 'f' then some (c.toNat - 'a'.toNat + 10)
  else if 'A' ≤ c ∧ c ≤ 'F' then some (c.toNat - 'A'.toNat + 10)
  else none

/-- Model of `hex::decode`: fails on an odd number of digits or a non-hex
character, otherwise yields one byte per digit pair. -/
def hexDecode : List Char → Option (List Nat)
  | [] => some []
  | [_] => none
  | c1 :: c2 :: rest =>
    match hexVal c1, hexVal c2, hexDecode rest with
    | some h, some l, some tail => some ((h * 16 + l) :: tail)
    | _, _, _ => none

/-- Model of `str::trim_start_matches("0x")`: strips every leading `0x`. -/
def trimStart0x : List Char → List Char
  | '0' :: 'x' :: rest => trimStart0x rest
  | l => l

/-- Outcome of the hash-decoding block at the top of `by_hash`. -/
inductive HashDecodeOutcome where
  | ok (bytes : H256) : HashDecodeOutcome
  | parseError (msg : String) : HashDecodeOutcome
  | panic : HashDecodeOutcome
deriving Repr, DecidableEq

/-- The `block_hash` block of `by_hash`: strip `0x`, `hex::decode` (a failure
becomes a contexted error), then `H256::from_slice`, which asserts that the
slice holds exactly 32 bytes and panics otherwise. -/
def parse_block_hash (s : String) : HashDecodeOutcome :=
  match hexDecode (trimStart0x s.data) with
  | none => .parseError ("Cannot parse H256 value from string " ++ s)
  | some bytes => if bytes.length = 32 then .ok bytes else .panic

/- ===== mod ranges (fix_block.rs lines 249-320) ===== -/

namespace ranges

/-- Largest `i32` value. -/
def i32max : Int := 2147483647

/-- Smallest `i32` value. -/
def i32min : Int := -2147483648

/-- Numeric value of a digit string (most significant first). -/
def digitsToNat (digits : List Char) : Nat :=
  digits.foldl (fun acc c => acc * 10 + (c.toNat - '0'.toNat)) 0

/-- Model of `str::parse::<i32>`: an optional sign followed by at least one
digit, rejected when the value leaves the `i32` range. -/
def parseI32 (cs : List Char) : Option Int :=
  let signDigits : Int × List Char :=
    match cs with
    | '+' :: rest => (1, rest)
    | '-' :: rest => (-1, rest)
    | l => (1, l)
  let sign := signDigits.1
  let digits := signDigits.2
  if digits = [] then none
  else if digits.all Char.isDigit then
    let v : Int := sign * (digitsToNat digits : Nat)
    if i32min ≤ v ∧ v ≤ i32max then some v else none
  else none

/-- Strip an exact leading pattern, recording how much the input shrank. -/
def stripPfx : (p : List Char) → (s : List Char) →
    Option { r : List Char // r.length + p.length = s.length }
  | [], s => some ⟨s, by simp⟩
  | _ :: _, [] => none
  | c :: cs, d :: ds =>
    if c = d then
      match stripPfx cs ds with
      | some ⟨r, h⟩ => some ⟨r, by simp only [List.length_cons]; omega⟩
      | none => none
    else none

/-- First occurrence of the (non-empty) separator `c0 :: cs` in `s`:
the text before it and the strictly shorter text after it. -/
def findSep (c0 : Char) (cs : List Char) :
    (s : List Char) → Option (List Char × { a : List Char // a.length < s.length })
  | [] => none
  | d :: ds =>
    match stripPfx (c0 :: cs) (d :: ds) with
    | some ⟨a, h⟩ => some ([], ⟨a, by simp only [List.length_cons] at h ⊢; omega⟩)
    | none =>
      match findSep c0 cs ds with
      | some (b, ⟨a, h⟩) => some (d :: b, ⟨a, by simp only [List.length_cons]; omega⟩)
      | none => none

/-- Model of `str::contains` for the non-empty separator `c0 :: cs`. -/
def containsSub (s : List Char) (c0 : Char) (cs : List Char) : Bool :=
  (findSep c0 cs s).isSome

/-- Worker for `splitSub` with an explicit recursion budget.  `findSep`
returns a strictly shorter remainder, so a budget of `s.length + 1` is never
exhausted; the budget only makes the recursion structural. -/
def splitSubFuel (c0 : Char) (cs : List Char) : Nat → List Char → List (List Char)
  | 0, s => [s]
  | fuel + 1, s =>
    match findSep c0 cs s with
    | none => [s]
    | some (b, ⟨a, _⟩) => b :: splitSubFuel c0 cs fuel a

/-- Model of `str::split` on the non-empty separator `c0 :: cs`:
non-overlapping occurrences, left to right. -/
def splitSub (c0 : Char) (cs : List Char) (s : List Char) : List (List Char) :=
  splitSubFuel c0 cs (s.length + 1) s

/-- `ranges::Range`: bounds as parsed, plus the separator's inclusivity. -/
structure Range where
  lower_bound : Option Int
  upper_bound : Option Int
  inclusive : Bool
deriving Repr, DecidableEq

/-- `Range::new`. -/
def Range.new (lower_bound upper_bound : Option Int) (inclusive : Bool) : Range :=
  ⟨lower_bound, upper_bound, inclusive⟩

/-- `Range::min_max`: a `None` or zero lower bound becomes 1, a negative one is
an error; the upper bound gets `+ 1` when the range is inclusive.  The `i32`
addition is modelled as exact `Int` addition; `min_max_add_overflows` states
when it leaves the `i32` range. -/
def Range.min_max (r : Range) : Except String (Int × Option Int) :=
  match r.lower_bound with
  | none => .ok (1, r.upper_bound.map (fun x => x + (if r.inclusive then 1 else 0)))
  | some x =>
    if x = 0 then .ok (1, r.upper_bound.map (fun y => y + (if r.inclusive then 1 else 0)))
    else if x < 0 then .error "Negative block number"
    else .ok (x, r.upper_bound.map (fun y => y + (if r.inclusive then 1 else 0)))

/-- The `x + inclusive` addition inside `min_max`, performed on `i32` in the
source, produces a value outside the `i32` range. -/
def min_max_add_overflows (r : Range) : Bool :=
  match r.upper_bound with
  | none => false
  | some x =>
    let inc : Int := if r.inclusive then 1 else 0
    decide (x + inc > i32max ∨ x + inc < i32min)

/-- Dispatch on the pieces `split` produced, as in `Range::from_str`'s `match`:
the arms are tried in source order. -/
def fromSplit (split : List (List Char)) (inclusive : Bool) : Except String Range :=
  match split with
  | [[], []] => .ok (Range.new none none true)
  | [start, []] =>
    match parseI32 start with
    | some st => .ok (Range.new (some st) none true)
    | none => .error "invalid digit found in string"
  | [[], end_] =>
    match parseI32 end_ with
    | some e => .ok (Range.new none (some e) inclusive)
    | none => .error "invalid digit found in string"
  | [start, end_] =>
    match parseI32 start, parseI32 end_ with
    | some st, some e =>
      if st > e then .error "Invalid range" else .ok (Range.new (some st) (some e) inclusive)
    | _, _ => .error "invalid digit found in string"
  | _ => .error "Invalid range"

/-- `Range::from_str`: require a separator, pick `..=` (inclusive) when present
and `..` (exclusive) otherwise, split on it and dispatch on the pieces. -/
def Range.from_str (s : String) : Except String Range :=
  if !(containsSub s.data '.' ['.', '=']) && !(containsSub s.data '.' ['.']) then
    .error "Malformed range expression"
  else if containsSub s.data '.' ['.', '='] then
    fromSplit (splitSub '.' ['.', '='] s.data) true
  else
    fromSplit (splitSub '.' ['.'] s.data) false

/-- Parse a range string and resolve it with `min_max`. -/
def parse_min_max (s : String) : Except String (Int × Option Int) :=
  match Range.from_str s with
  | .error e => .error e
  | .ok r => r.min_max

end ranges

/-- The integers from `a` to `b`, both included — the Rust iterator `a..=b`. -/
def intRangeIncl (a b : Int) : List Int :=
  (List.range (b + 1 - a).toNat).map (fun k => a + k)

/-- The block numbers the `by_range` loop iterates over: resolve the parsed
range with `min_max`, fill an open upper bound from the chain head, then run
`for block_number in min..=max`. -/
def by_range_numbers (s : String) (chain_head : Option Int) : Except String (List Int) :=
  match ranges.Range.from_str s with
  | .error e => .error e
  | .ok r =>
    match r.min_max with
    | .error e => .error e
    | .ok (min, maxOpt) =>
      match maxOpt with
      | some mx => .ok (intRangeIncl min mx)
      | none =>
        match chain_head with
        | some h => .ok (intRangeIncl min h)
        | none => .error "Could not find the chain head"

/- ===== get_single_item (fix_block.rs lines 237-247) ===== -/

/-- Convenience function for extracting values from unary sets: the code draws
two elements from the iterator and matches on the pair. -/
def get_single_item {α : Type} (name : String) (collection : List α) : Except String α :=
  match collection with
  | [a] => .ok a
  | [] => .error ("Expected a single " ++ name ++ " but found none.")
  | _ :: _ :: _ => .error ("Expected a single " ++ name ++ " but found multiple occurrences.")

/- ===== Upstream fetcher and divergence engine ===== -/

/-- A block as the JSON-RPC client returns it: the hash field the provider
reports (absent for pending blocks) and the block's serialized JSON form. -/
structure ProviderBlock where
  hash : Option H256
  json : Json

/-- The external collaborators of the command, as explicit functions:
the postgres store, the JSON-RPC adapter and the `json_structural_diff`
crate (`JsonDiff::diff(..).diff` and `colorize`). -/
structure Env where
  blocks : H256 → List Json
  block_hashes_by_block_number : Int → List H256
  chain_head : Option Int
  delete_blocks : H256 → Except String Unit
  truncate_block_cache : Except String Unit
  block_by_hash : H256 → Except String (Option ProviderBlock)
  json_diff : Json → Json → Option Json
  render : Json → String

/-- Hexadecimal rendering of a hash, as `H256`'s display form. -/
def hexOfH256 (h : H256) : String :=
  "0x" ++ String.mk (h.foldr (fun b acc =>
    (if b / 16 < 10 then Char.ofNat ('0'.toNat + b / 16) else Char.ofNat ('a'.toNat + b / 16 - 10)) ::
    (if b % 16 < 10 then Char.ofNat ('0'.toNat + b % 16) else Char.ofNat ('a'.toNat + b % 16 - 10)) ::
    acc) [])

/-- The loop of `fetch_provider_blocks`: fetch each cached block's hash from
the provider; a fetch failure, a missing block, or a reported hash different
from the requested one is an error that aborts the whole batch. -/
def fetch_provider_blocks_go (fetch : H256 → Except String (Option ProviderBlock)) :
    List (H256 × Json) → Except String (List Json)
  | [] => .ok []
  | (hash, _block) :: rest =>
    match fetch hash with
    | .error e => .error ("failed to fetch block: " ++ e)
    | .ok none => .error ("JRPC provider found no block with hash " ++ hexOfH256 hash)
    | .ok (some provider_block) =>
      if provider_block.hash = some hash then
        match fetch_provider_blocks_go fetch rest with
        | .error e => .error e
        | .ok tail => .ok (provider_block.json :: tail)
      else .error "Provider responded with a different block hash"

/-- `fetch_provider_blocks`: run the fetch loop, then the defensive
`ensure!` that the provider returned as many blocks as were requested. -/
def fetch_provider_blocks (fetch : H256 → Except String (Option ProviderBlock))
    (cached_blocks : List (H256 × Json)) : Except String (List Json) :=
  match fetch_provider_blocks_go fetch cached_blocks with
  | .error e => .error e
  | .ok provider_blocks =>
    if cached_blocks.length = provider_blocks.length then .ok provider_blocks
    else .error "requested more blocks from JRPC provider than got in response"

/-- The `json_diff` step of `diff_blocks` (lines 204-214): a computed diff of
`None` or `Value::Null` is recorded as no divergence, any other diff is
rendered for display. -/
def render_json_diff (jdiff : Json → Json → Option Json) (render : Json → String)
    (cached_block provider_block : Json) : Option String :=
  match jdiff cached_block provider_block with
  | none => none
  | some .null => none
  | some d => some (render d)

/-- `diff_blocks`: for each aligned pair, when the cached and provider
payloads differ, compute the structural diff; a diff of `None` or `Null` is
recorded as no divergence.  Pairs that compare equal produce no entry. -/
def diff_blocks (jdiff : Json → Json → Option Json) (render : Json → String) :
    List ((H256 × Json) × Json) → Except String (List (H256 × Option String))
  | [] => .ok []
  | ((hash, cached_block), provider_block) :: rest =>
    match diff_blocks jdiff render rest with
    | .error e => .error e
    | .ok tail =>
      if Json.beq cached_block provider_block then .ok tail
      else .ok ((hash, render_json_diff jdiff render cached_block provider_block) :: tail)

/-- `compare_blocks`: fetch the provider blocks, pair them positionally with
the cached ones and diff each pair. -/
def compare_blocks (env : Env) (cached_blocks : List (H256 × Json)) :
    Except String (List (H256 × Option String)) :=
  match fetch_provider_blocks env.block_by_hash cached_blocks with
  | .error e => .error e
  | .ok provider_blocks => diff_blocks env.json_diff env.render (cached_blocks.zip provider_blocks)

/- ===== Command runners ===== -/

/-- What a command invocation did: its returned result, the diffs printed for
the operator (in order), and the delete operations issued (in order). -/
structure CmdOutcome where
  result : Except String Unit
  displayed : List (H256 × String)
  deleted : List H256
deriving Repr

/-- The report loop shared by the commands (`by_range` lines 129-135): a
report with a diff is displayed and then its row deleted; a failing delete
aborts the loop; a report without a diff is skipped. -/
def process_loop (env : Env) : List (H256 × Option String) → CmdOutcome
  | [] => ⟨.ok (), [], []⟩
  | (hash, some diff) :: rest =>
    match env.delete_blocks hash with
    | .error e => ⟨.error e, [(hash, diff)], [hash]⟩
    | .ok () =>
      let o := process_loop env rest
      ⟨o.result, (hash, diff) :: o.displayed, hash :: o.deleted⟩
  | (_, none) :: rest => process_loop env rest

/-- `by_hash` after hash decoding: resolve the single cached block, compare,
extract the single comparison, and display/delete only on a divergence. -/
def by_hash_run (env : Env) (block_hash : H256) : CmdOutcome :=
  match get_single_item "block" (env.blocks block_hash) with
  | .error e => ⟨.error e, [], []⟩
  | .ok cached_block =>
    match
      ((match (compare_blocks env [(block_hash, cached_block)]).mapError
          (fun e => "Failed to compare blocks: " ++ e) with
       | .error e => .error e
       | .ok result_set => get_single_item "comparison" result_set) :
        Except String (H256 × Option String)) with
    | .error e => ⟨.error e, [], []⟩
    | .ok (hash, some diff) =>
      match env.delete_blocks hash with
      | .ok () => ⟨.ok (), [(hash, diff)], [hash]⟩
      | .error e => ⟨.error e, [(hash, diff)], [hash]⟩
    | .ok (_, none) => ⟨.ok (), [], []⟩

/-- `by_number`: resolve the number to its single hash, then proceed exactly
as `by_hash` (the delete targets the resolved `block_hash`). -/
def by_number_run (env : Env) (number : Int) : CmdOutcome :=
  match get_single_item "block hash" (env.block_hashes_by_block_number number) with
  | .error e => ⟨.error e, [], []⟩
  | .ok block_hash =>
    match get_single_item "block" (env.blocks block_hash) with
    | .error e => ⟨.error e, [], []⟩
    | .ok cached_block =>
      match
        ((match (compare_blocks env [(block_hash, cached_block)]).mapError
            (fun e => "Failed to compare blocks: " ++ e) with
         | .error e => .error e
         | .ok result_set => get_single_item "comparison" result_set) :
          Except String (H256 × Option String)) with
      | .error e => ⟨.error e, [], []⟩
      | .ok (hash, some diff) =>
        match env.delete_blocks block_hash with
        | .ok () => ⟨.ok (), [(hash, diff)], [block_hash]⟩
        | .error e => ⟨.error e, [(hash, diff)], [block_hash]⟩
      | .ok (_, none) => ⟨.ok (), [], []⟩

/-- The `for block_number in min..=max` resolution loop of `by_range`: each
number must have exactly one hash, and that hash exactly one cached block. -/
def resolve_cached (env : Env) : List Int → Except String (List (H256 × Json))
  | [] => .ok []
  | n :: rest =>
    match get_single_item "block hash" (env.block_hashes_by_block_number n) with
    | .error e => .error e
    | .ok block_hash =>
      match get_single_item "block" (env.blocks block_hash) with
      | .error e => .error e
      | .ok cached_block =>
        match resolve_cached env rest with
        | .error e => .error e
        | .ok tail => .ok ((block_hash, cached_block) :: tail)

/-- The `cached_blocks` block of `by_range` (lines 93-122): parse the range,
resolve it with `min_max`, fill an open upper bound from the chain head and
resolve every number in `min..=max`. -/
def by_range_resolve (env : Env) (range : String) : Except String (List (H256 × Json)) :=
  match ranges.Range.from_str range with
  | .error e => .error e
  | .ok r =>
    match r.min_max with
    | .error e => .error e
    | .ok (min, maxOpt) =>
      match
        (match maxOpt with
         | some x => Except.ok x
         | none =>
           match env.chain_head with
           | some h => Except.ok h
           | none => Except.error "Could not find the chain head") with
      | .error e => .error e
      | .ok max => resolve_cached env (intRangeIncl min max)

/-- `by_range`: resolve the cached blocks, compare them against the provider
and run the report loop. -/
def by_range_run (env : Env) (range : String) : CmdOutcome :=
  match by_range_resolve env range with
  | .error e => ⟨.error e, [], []⟩
  | .ok cached_blocks =>
    match (compare_blocks env cached_blocks).mapError
        (fun e => "Failed to compare blocks: " ++ e) with
    | .error e => ⟨.error e, [], []⟩
    | .ok comparison_results => process_loop env comparison_results

/- ===== truncate (fix_block.rs lines 139-148, 222-234) ===== -/

/-- Model of `str::make_ascii_lowercase`. -/
def make_ascii_lowercase (cs : List Char) : List Char :=
  cs.map (fun c => if 'A' ≤ c ∧ c ≤ 'Z' then Char.ofNat (c.toNat + 32) else c)

/-- Whitespace as `str::trim` removes it (the ASCII cases an answer line can
contain). -/
def isWs (c : Char) : Bool :=
  c = ' ' || c = '\t' || c = '\n' || c = '\r'

/-- Model of `str::trim`: drop leading and trailing whitespace. -/
def trimWs (cs : List Char) : List Char :=
  ((cs.dropWhile isWs).reverse.dropWhile isWs).reverse

/-- `prompt_for_confirmation` applied to the line the operator typed:
lowercase it, trim it, and accept exactly `y` or `yes`. -/
def prompt_for_confirmation (answer : String) : Bool :=
  let trimmed := trimWs (make_ascii_lowercase answer.data)
  if trimmed = "y".data ∨ trimmed = "yes".data then true else false

/-- What a `truncate` invocation did. -/
structure TruncateOutcome where
  result : Except String Unit
  prompted : Bool
  truncate_issued : Bool
  abort_notice : Bool
deriving Repr

/-- `truncate`: without the skip flag, a declined prompt prints the abort
notice and returns `Ok`; otherwise the store truncation runs, its failure
contexted. -/
def truncate_run (skip_confirmation : Bool) (answer : String)
    (store_truncate : Except String Unit) : TruncateOutcome :=
  if !skip_confirmation && !(prompt_for_confirmation answer) then
    ⟨.ok (), true, false, true⟩
  else
    ⟨store_truncate.mapError (fun e => "Failed to truncate block cache: " ++ e),
     !skip_confirmation, true, false⟩

/- ===== Concrete fixtures used by the witnesses ===== -/

/-- The all-zero 32-byte hash. -/
def zeroHash : H256 := List.replicate 32 0

/-- A store holding one cached block (`Json.null`) for every hash, a provider
that echoes the cached payload back, and a diff algorithm that reports no
delta. -/
def envEqual : Env where
  blocks := fun _ => [Json.null]
  block_hashes_by_block_number := fun _ => [zeroHash]
  chain_head := some 5
  delete_blocks := fun _ => .ok ()
  truncate_block_cache := .ok ()
  block_by_hash := fun h => .ok (some ⟨some h, Json.null⟩)
  json_diff := fun _ _ => none
  render := fun _ => ""

/-- `envEqual` with an upstream whose every fetch fails. -/
def envFetchFails : Env :=
  { envEqual with block_by_hash := fun _ => .error "boom" }

/-- A provider block that reports the requested hash and the payload `num 7`. -/
def fetchGood : H256 → Except String (Option ProviderBlock) :=
  fun h => .ok (some ⟨some h, Json.num 7⟩)

/-- A provider that reports the wrong hash for every request. -/
def fetchWrongHash : H256 → Except String (Option ProviderBlock) :=
  fun _ => .ok (some ⟨some (List.replicate 32 1), Json.num 7⟩)

/- =====================  Theorems  ===================== -/

/-- C1: the claim says an exclusive upper bound `N` excludes block `N`
(`"3..7"` covers 3..6) and an inclusive one includes it (`"3..=7"` covers
3..7).  The code resolves `min_max` to an exclusive-style maximum but then
iterates `min..=max`, so `by_range` inspects block 7 for `"3..7"` and block 8
for `"3..=7"`. -/
theorem by_range_inspected_numbers :
    by_range_numbers "3..7" (some 1000) = .ok [3, 4, 5, 6, 7] ∧
    by_range_numbers "3..=7" (some 1000) = .ok [3, 4, 5, 6, 7, 8] :=
  ⟨rfl, rfl⟩

/-- C2: the claim says `diff_blocks` returns one report per input pair with
`diff = None` for structurally equal pairs; the code pushes no report at all
for an equal pair, so a single equal pair yields the empty report list. -/
theorem diff_blocks_equal_pair_unreported :
    diff_blocks (fun _ _ => none) (fun _ => "") [((zeroHash, Json.null), Json.null)] =
      .ok ([] : List (H256 × Option String)) :=
  rfl

/-- C3: the claim says hex text decoding to fewer or more than 32 bytes is a
parse error and never a panic; on input `"abcd"` (valid hex, 2 bytes) the
code reaches `H256::from_slice`, whose length assertion panics. -/
theorem by_hash_short_hex_panics :
    parse_block_hash "abcd" = HashDecodeOutcome.panic :=
  rfl

/-- C10: the range string `"0..=2147483647"` is accepted by the parser with
the maximum `i32` as its inclusive upper bound, and the `+ 1` normalization
inside `min_max` then leaves the `i32` range. -/
theorem min_max_plus_one_overflows_i32 :
    ranges.Range.from_str "0..=2147483647" =
      .ok (ranges.Range.new (some 0) (some ranges.i32max) true) ∧
    ranges.min_max_add_overflows (ranges.Range.new (some 0) (some ranges.i32max) true) = true :=
  ⟨rfl, by decide⟩

/-- C6: `get_single_item` yields the element of a singleton, a
found-none error on an empty collection, and a found-multiple error as soon
as the collection holds at least two elements. -/
theorem get_single_item_spec :
    ∀ (α : Type) (name : String) (l : List α),
      (l = [] →
        get_single_item name l = .error ("Expected a single " ++ name ++ " but found none.")) ∧
      (∀ a, l = [a] → get_single_item name l = .ok a) ∧
      (2 ≤ l.length →
        get_single_item name l =
          .error ("Expected a single " ++ name ++ " but found multiple occurrences.")) := by
  intro α name l
  refine ⟨?_, ?_, ?_⟩
  · rintro rfl; rfl
  · rintro a rfl; rfl
  · intro hlen
    match l with
    | [] => simp at hlen
    | [a] => simp at hlen
    | a :: b :: rest => rfl

/-- C6 witness: the three behaviors at concrete collections. -/
theorem get_single_item_spec_witness :
    get_single_item "block" ([] : List Nat) = .error "Expected a single block but found none." ∧
    get_single_item "block" [7] = .ok 7 ∧
    get_single_item "block" [7, 8] =
      .error "Expected a single block but found multiple occurrences." :=
  ⟨(get_single_item_spec Nat "block" []).1 rfl,
   (get_single_item_spec Nat "block" [7]).2.1 7 rfl,
   (get_single_item_spec Nat "block" [7, 8]).2.2 (by decide)⟩

/-- C9: with the skip flag the cache truncation runs without prompting; without
it, an answer whose lowercased, trimmed text is `y` or `yes` truncates, and any
other answer leaves the cache untouched, prints the abort notice and returns
success. -/
theorem truncate_spec :
    ∀ (answer : String) (st : Except String Unit),
      ((truncate_run true answer st).prompted = false ∧
       (truncate_run true answer st).truncate_issued = true ∧
       (truncate_run true answer st).result =
         st.mapError (fun e => "Failed to truncate block cache: " ++ e)) ∧
      ((trimWs (make_ascii_lowercase answer.data) = "y".data ∨
        trimWs (make_ascii_lowercase answer.data) = "yes".data) →
        truncate_run false answer st =
          ⟨st.mapError (fun e => "Failed to truncate block cache: " ++ e), true, true, false⟩) ∧
      ((trimWs (make_ascii_lowercase answer.data) ≠ "y".data ∧
        trimWs (make_ascii_lowercase answer.data) ≠ "yes".data) →
        truncate_run false answer st = ⟨.ok (), true, false, true⟩) := by
  intro answer st
  refine ⟨⟨rfl, rfl, rfl⟩, ?_, ?_⟩
  · intro hyes
    have hp : prompt_for_confirmation answer = true := by
      unfold prompt_for_confirmation
      rcases hyes with hy | hy <;> simp [hy]
    simp [truncate_run, hp]
  · intro hno
    have hp : prompt_for_confirmation answer = false := by
      unfold prompt_for_confirmation
      simp [hno.1, hno.2]
    simp [truncate_run, hp]

/-- C9 witness: skipping the flag truncates without prompting; a declined
answer `"n"` leaves the cache alone and succeeds; `"YES"` truncates. -/
theorem truncate_spec_witness :
    ((truncate_run true "n" (.ok ())).prompted = false ∧
     (truncate_run true "n" (.ok ())).truncate_issued = true ∧
     (truncate_run true "n" (.ok ())).result =
       (Except.ok ()).mapError (fun e => "Failed to truncate block cache: " ++ e)) ∧
    truncate_run false "n" (.ok ()) = ⟨.ok (), true, false, true⟩ ∧
    truncate_run false "YES" (.ok ()) =
      ⟨(Except.ok ()).mapError (fun e => "Failed to truncate block cache: " ++ e),
       true, true, false⟩ :=
  ⟨(truncate_spec "n" (.ok ())).1,
   (truncate_spec "n" (.ok ())).2.2 ⟨by decide, by decide⟩,
   (truncate_spec "YES" (.ok ())).2.1 (Or.inr (by decide))⟩

/-- Helper: every range `fromSplit` accepts with an open upper bound is
inclusive — the two open-bound arms both build `Range::new(_, None, true)`. -/
theorem ranges.fromSplit_open_inclusive :
    ∀ (split : List (List Char)) (inc : Bool) (r : ranges.Range),
      ranges.fromSplit split inc = .ok r → r.upper_bound = none → r.inclusive = true := by
  intro split inc r hok hup
  unfold ranges.fromSplit at hok
  split at hok
  · cases hok; rfl
  · split at hok
    · cases hok; rfl
    · cases hok
  · split at hok
    · cases hok; simp [ranges.Range.new] at hup
    · cases hok
  · split at hok
    · split at hok
      · cases hok
      · cases hok; simp [ranges.Range.new] at hup
    · cases hok
  · cases hok

/-- Helper: `from_str` only produces ranges through `fromSplit`, so every
accepted range with an open upper bound is inclusive. -/
theorem ranges.fromSplit_open_inclusive_of_from_str :
    ∀ (s : String) (r : ranges.Range),
      ranges.Range.from_str s = .ok r → r.upper_bound = none → r.inclusive = true := by
  intro s r hparse hup
  unfold ranges.Range.from_str at hparse
  split at hparse
  · cases hparse
  · split at hparse
    · exact ranges.fromSplit_open_inclusive _ true r hparse hup
    · exact ranges.fromSplit_open_inclusive _ false r hparse hup

/-- C5 counterexample: the claim says a lower bound `N` with an open upper
bound resolves to `(N, open)`, but `"0.."` resolves to `(1, open)`, not
`(0, open)`: `min_max` normalizes a zero lower bound to 1. -/
theorem open_range_zero_lower_minmax :
    ranges.parse_min_max "0.." = .ok (1, (none : Option Int)) ∧
    ranges.parse_min_max "0.." ≠ .ok (0, (none : Option Int)) := by
  refine ⟨rfl, ?_⟩
  intro hc
  rw [show ranges.parse_min_max "0.." = .ok (1, (none : Option Int)) from rfl] at hc
  simp at hc

/-- C5 amended: for every accepted range string whose upper bound is open, the
parsed range is inclusive regardless of which separator token was used, and
`min_max` resolves a lower bound `N > 0` to `(N, open)`, normalizes `N = 0` to
`(1, open)`, and rejects a negative `N`. -/
theorem open_upper_bound_always_inclusive :
    ∀ (s : String) (r : ranges.Range),
      ranges.Range.from_str s = .ok r → r.upper_bound = none →
      r.inclusive = true ∧
      (∀ n, r.lower_bound = some n →
        r.min_max = if n < 0 then .error "Negative block number"
                    else .ok (if n = 0 then 1 else n, none)) := by
  intro s r hparse hup
  constructor
  · exact ranges.fromSplit_open_inclusive_of_from_str s r hparse hup
  · intro n hlow
    rcases r with ⟨lb, ub, inc⟩
    simp only at hup hlow
    subst hup hlow
    unfold ranges.Range.min_max
    simp only [Option.map_none]
    by_cases h0 : n = 0
    · subst h0; simp
    · by_cases hneg : n < 0
      · simp [h0, hneg]
      · simp [h0, hneg]

/-- C5 witness: `"5.."` parses with an open, inclusive upper bound and
`min_max` resolves it to `(5, open)`. -/
theorem open_upper_bound_always_inclusive_witness :
    ranges.Range.from_str "5.." = .ok (ranges.Range.new (some 5) none true) ∧
    (ranges.Range.new (some 5) none true).inclusive = true ∧
    (ranges.Range.new (some 5) none true).min_max = .ok (5, none) := by
  refine ⟨rfl, ?_, ?_⟩
  · exact (open_upper_bound_always_inclusive "5.." (ranges.Range.new (some 5) none true)
      rfl rfl).1
  · have h := (open_upper_bound_always_inclusive "5.." (ranges.Range.new (some 5) none true)
      rfl rfl).2 5 rfl
    simpa using h

/-- Helper: a successful fetch loop returns one payload per requested hash, in
request order, each from a provider block whose reported hash matches. -/
theorem fetch_provider_blocks_go_ok :
    ∀ (fetch : H256 → Except String (Option ProviderBlock)) (cached : List (H256 × Json))
      (out : List Json), fetch_provider_blocks_go fetch cached = .ok out →
      out.length = cached.length ∧
      ∀ (i : Nat) (pair : H256 × Json), cached[i]? = some pair →
        ∃ pb, fetch pair.1 = .ok (some pb) ∧ pb.hash = some pair.1 ∧ out[i]? = some pb.json := by
  intro fetch cached
  induction cached with
  | nil =>
    intro out h
    simp only [fetch_provider_blocks_go, Except.ok.injEq] at h
    subst h
    simp
  | cons hd tl ih =>
    intro out h
    obtain ⟨hash, blk⟩ := hd
    cases hf : fetch hash with
    | error e =>
      simp only [fetch_provider_blocks_go, hf] at h
      cases h
    | ok opb =>
      cases opb with
      | none =>
        simp only [fetch_provider_blocks_go, hf] at h
        cases h
      | some pb =>
        by_cases hh : pb.hash = some hash
        · cases hgo : fetch_provider_blocks_go fetch tl with
          | error e =>
            simp only [fetch_provider_blocks_go, hf, hh, if_pos, hgo] at h
            cases h
          | ok tail =>
            simp only [fetch_provider_blocks_go, hf, hh, if_pos, hgo, Except.ok.injEq] at h
            subst h
            obtain ⟨hlen, hpt⟩ := ih tail hgo
            refine ⟨by simp [hlen], ?_⟩
            intro i pair hi
            cases i with
            | zero =>
              simp only [List.getElem?_cons_zero, Option.some_inj] at hi
              subst hi
              exact ⟨pb, hf, hh, by simp⟩
            | succ n =>
              simp only [List.getElem?_cons_succ] at hi
              obtain ⟨pb', h1, h2, h3⟩ := hpt n pair hi
              exact ⟨pb', h1, h2, by simpa using h3⟩
        · simp only [fetch_provider_blocks_go, hf, hh, if_neg, if_false] at h
          cases h

/-- Helper: if some requested hash gets a not-found response or a provider
block with a different reported hash, the fetch loop fails. -/
theorem fetch_provider_blocks_go_error :
    ∀ (fetch : H256 → Except String (Option ProviderBlock)) (cached : List (H256 × Json)),
      (∃ (i : Nat) (pair : H256 × Json), cached[i]? = some pair ∧
        (fetch pair.1 = .ok none ∨
         ∃ pb, fetch pair.1 = .ok (some pb) ∧ pb.hash ≠ some pair.1)) →
      ∃ e, fetch_provider_blocks_go fetch cached = .error e := by
  intro fetch cached
  induction cached with
  | nil => rintro ⟨i, pair, hi, _⟩; simp at hi
  | cons hd tl ih =>
    rintro ⟨i, pair, hi, hbad⟩
    obtain ⟨hash, blk⟩ := hd
    cases hf : fetch hash with
    | error e => exact ⟨"failed to fetch block: " ++ e, by simp [fetch_provider_blocks_go, hf]⟩
    | ok opb =>
      cases opb with
      | none =>
        exact ⟨"JRPC provider found no block with hash " ++ hexOfH256 hash,
          by simp [fetch_provider_blocks_go, hf]⟩
      | some pb =>
        by_cases hh : pb.hash = some hash
        · have hrest : ∃ (i' : Nat) (pair' : H256 × Json), tl[i']? = some pair' ∧
              (fetch pair'.1 = .ok none ∨
               ∃ pb', fetch pair'.1 = .ok (some pb') ∧ pb'.hash ≠ some pair'.1) := by
            cases i with
            | zero =>
              simp only [List.getElem?_cons_zero, Option.some_inj] at hi
              subst hi
              rcases hbad with hb | ⟨pb', hb1, hb2⟩
              · rw [hf] at hb; cases hb
              · rw [hf] at hb1
                injection hb1 with hb1
                injection hb1 with hb1
                subst hb1
                exact absurd hh hb2
            | succ n =>
              simp only [List.getElem?_cons_succ] at hi
              exact ⟨n, pair, hi, hbad⟩
          obtain ⟨e, hge⟩ := ih hrest
          exact ⟨e, by simp [fetch_provider_blocks_go, hf, hh, hge]⟩
        · exact ⟨"Provider responded with a different block hash",
            by simp [fetch_provider_blocks_go, hf, hh]⟩

/-- Helper: the trailing length `ensure!` never fires, so
`fetch_provider_blocks` equals its loop. -/
theorem fetch_provider_blocks_eq_go :
    ∀ (fetch : H256 → Except String (Option ProviderBlock)) (cached : List (H256 × Json)),
      fetch_provider_blocks fetch cached = fetch_provider_blocks_go fetch cached := by
  intro fetch cached
  unfold fetch_provider_blocks
  cases hgo : fetch_provider_blocks_go fetch cached with
  | error e => rfl
  | ok out =>
    have hlen := (fetch_provider_blocks_go_ok fetch cached out hgo).1
    simp [hlen]

/-- C7: a successful `fetch_provider_blocks` returns exactly one canonical
payload per requested hash, in request order, each from a provider block whose
reported hash equals the requested one; a not-found response or a reported
hash different from the requested one makes the whole call a hard error. -/
theorem fetch_provider_blocks_spec :
    ∀ (fetch : H256 → Except String (Option ProviderBlock)) (cached : List (H256 × Json)),
      (∀ out, fetch_provider_blocks fetch cached = .ok out →
        out.length = cached.length ∧
        ∀ (i : Nat) (pair : H256 × Json), cached[i]? = some pair →
          ∃ pb, fetch pair.1 = .ok (some pb) ∧ pb.hash = some pair.1 ∧
            out[i]? = some pb.json) ∧
      ((∃ (i : Nat) (pair : H256 × Json), cached[i]? = some pair ∧
          (fetch pair.1 = .ok none ∨
           ∃ pb, fetch pair.1 = .ok (some pb) ∧ pb.hash ≠ some pair.1)) →
        ∃ e, fetch_provider_blocks fetch cached = .error e) := by
  intro fetch cached
  constructor
  · intro out h
    rw [fetch_provider_blocks_eq_go] at h
    exact fetch_provider_blocks_go_ok fetch cached out h
  · intro hbad
    obtain ⟨e, hge⟩ := fetch_provider_blocks_go_error fetch cached hbad
    exact ⟨e, by rw [fetch_provider_blocks_eq_go, hge]⟩

/-- C7 witness: a one-element batch against a well-behaved provider yields the
provider payload, in place, from a matching reported hash. -/
theorem fetch_provider_blocks_spec_witness :
    ([Json.num 7] : List Json).length = [(zeroHash, Json.null)].length ∧
    ∃ pb, fetchGood (zeroHash, Json.null).1 = .ok (some pb) ∧
      pb.hash = some (zeroHash, Json.null).1 ∧ ([Json.num 7] : List Json)[0]? = some pb.json :=
  ⟨((fetch_provider_blocks_spec fetchGood [(zeroHash, Json.null)]).1 [Json.num 7] rfl).1,
   ((fetch_provider_blocks_spec fetchGood [(zeroHash, Json.null)]).1 [Json.num 7] rfl).2
     0 (zeroHash, Json.null) rfl⟩

/-- Helper: `diff_blocks` never fails (the only fallible step of the source,
re-serializing a `Value`, is the identity here). -/
theorem diff_blocks_ok :
    ∀ (jdiff : Json → Json → Option Json) (render : Json → String)
      (l : List ((H256 × Json) × Json)),
      ∃ out, diff_blocks jdiff render l = .ok out := by
  intro jdiff render l
  induction l with
  | nil => exact ⟨[], rfl⟩
  | cons hd rest ih =>
    obtain ⟨tail, ht⟩ := ih
    obtain ⟨⟨hash, c⟩, p⟩ := hd
    cases hb : Json.beq c p
    · exact ⟨(hash, render_json_diff jdiff render c p) :: tail,
        by simp [diff_blocks, ht, hb]⟩
    · exact ⟨tail, by simp [diff_blocks, ht, hb]⟩

/-- Helper: `diff_blocks` distributes over list append. -/
theorem diff_blocks_append :
    ∀ (jdiff : Json → Json → Option Json) (render : Json → String)
      (l1 l2 : List ((H256 × Json) × Json)) (out1 out2 : List (H256 × Option String)),
      diff_blocks jdiff render l1 = .ok out1 → diff_blocks jdiff render l2 = .ok out2 →
      diff_blocks jdiff render (l1 ++ l2) = .ok (out1 ++ out2) := by
  intro jdiff render l1 l2
  induction l1 with
  | nil =>
    intro out1 out2 h1 h2
    simp only [diff_blocks, Except.ok.injEq] at h1
    subst h1
    simpa using h2
  | cons hd rest ih =>
    intro out1 out2 h1 h2
    obtain ⟨⟨hash, c⟩, p⟩ := hd
    cases hrest : diff_blocks jdiff render rest with
    | error e =>
      simp only [diff_blocks, hrest] at h1
      cases h1
    | ok tail =>
      cases hb : Json.beq c p
      · simp only [diff_blocks, hrest, hb, Bool.false_eq_true, if_false, Except.ok.injEq] at h1
        subst h1
        have hrec := ih tail out2 hrest h2
        simp [diff_blocks, hrec, hb]
      · simp only [diff_blocks, hrest, hb, if_true, Except.ok.injEq] at h1
        subst h1
        have hrec := ih tail out2 hrest h2
        simp [diff_blocks, hrec, hb]

/-- Helper: every report `diff_blocks` emits carries the hash of one of the
input pairs. -/
theorem diff_blocks_mem_hash :
    ∀ (jdiff : Json → Json → Option Json) (render : Json → String)
      (l : List ((H256 × Json) × Json)) (out : List (H256 × Option String))
      (x : H256 × Option String),
      diff_blocks jdiff render l = .ok out → x ∈ out → ∃ q ∈ l, q.1.1 = x.1 := by
  intro jdiff render l
  induction l with
  | nil =>
    intro out x h hx
    simp only [diff_blocks, Except.ok.injEq] at h
    subst h
    simp at hx
  | cons hd rest ih =>
    intro out x h hx
    obtain ⟨⟨hash, c⟩, p⟩ := hd
    cases hrest : diff_blocks jdiff render rest with
    | error e =>
      simp only [diff_blocks, hrest] at h
      cases h
    | ok tail =>
      cases hb : Json.beq c p
      · simp only [diff_blocks, hrest, hb, Bool.false_eq_true, if_false, Except.ok.injEq] at h
        subst h
        rcases List.mem_cons.mp hx with hx | hx
        · subst hx
          exact ⟨((hash, c), p), List.mem_cons_self _ _, rfl⟩
        · obtain ⟨q, hq, hq1⟩ := ih tail x hrest hx
          exact ⟨q, List.mem_cons_of_mem _ hq, hq1⟩
      · simp only [diff_blocks, hrest, hb, if_true, Except.ok.injEq] at h
        subst h
        obtain ⟨q, hq, hq1⟩ := ih tail x hrest hx
        exact ⟨q, List.mem_cons_of_mem _ hq, hq1⟩

/-- Helper: the report loop only deletes hashes whose report carries a diff. -/
theorem process_loop_deleted_mem :
    ∀ (env : Env) (reports : List (H256 × Option String)) (x : H256),
      x ∈ (process_loop env reports).deleted → ∃ d, (x, some d) ∈ reports := by
  intro env reports
  induction reports with
  | nil => intro x hx; simp [process_loop] at hx
  | cons hd rest ih =>
    intro x hx
    obtain ⟨hash, odiff⟩ := hd
    cases odiff with
    | none =>
      simp only [process_loop] at hx
      obtain ⟨d, hd⟩ := ih x hx
      exact ⟨d, List.mem_cons_of_mem _ hd⟩
    | some diff =>
      cases hdel : env.delete_blocks hash with
      | error e =>
        simp only [process_loop, hdel] at hx
        simp only [List.mem_singleton] at hx
        subst hx
        exact ⟨diff, List.mem_cons_self _ _⟩
      | ok u =>
        cases u
        simp only [process_loop, hdel] at hx
        rcases List.mem_cons.mp hx with hx | hx
        · subst hx
          exact ⟨diff, List.mem_cons_self _ _⟩
        · obtain ⟨d, hd⟩ := ih x hx
          exact ⟨d, List.mem_cons_of_mem _ hd⟩

/-- Helper: the report loop only displays reports that carry a diff. -/
theorem process_loop_displayed_mem :
    ∀ (env : Env) (reports : List (H256 × Option String)) (x : H256) (d : String),
      (x, d) ∈ (process_loop env reports).displayed → (x, some d) ∈ reports := by
  intro env reports
  induction reports with
  | nil => intro x d hx; simp [process_loop] at hx
  | cons hd rest ih =>
    intro x d hx
    obtain ⟨hash, odiff⟩ := hd
    cases odiff with
    | none =>
      simp only [process_loop] at hx
      exact List.mem_cons_of_mem _ (ih x d hx)
    | some diff =>
      cases hdel : env.delete_blocks hash with
      | error e =>
        simp only [process_loop, hdel] at hx
        simp only [List.mem_singleton, Prod.mk.injEq] at hx
        obtain ⟨hx1, hx2⟩ := hx
        subst hx1; subst hx2
        exact List.mem_cons_self _ _
      | ok u =>
        cases u
        simp only [process_loop, hdel] at hx
        rcases List.mem_cons.mp hx with hx | hx
        · rw [Prod.mk.injEq] at hx
          obtain ⟨hx1, hx2⟩ := hx
          subst hx1; subst hx2
          exact List.mem_cons_self _ _
        · exact List.mem_cons_of_mem _ (ih x d hx)

/-- C4: a pair whose payloads differ but whose computed diff is empty
(`None`) or `Null` gets a report with `diff = None`, and the report loop
neither displays nor deletes it. -/
theorem empty_diff_reported_nondivergent :
    ∀ (env : Env) (pre post : List ((H256 × Json) × Json)) (hsh : H256) (c p : Json),
      Json.beq c p = false →
      (env.json_diff c p = none ∨ env.json_diff c p = some Json.null) →
      (∀ q ∈ pre, q.1.1 ≠ hsh) → (∀ q ∈ post, q.1.1 ≠ hsh) →
      ∃ reports,
        diff_blocks env.json_diff env.render (pre ++ ((hsh, c), p) :: post) = .ok reports ∧
        (hsh, (none : Option String)) ∈ reports ∧
        hsh ∉ (process_loop env reports).deleted ∧
        ∀ d, (hsh, d) ∉ (process_loop env reports).displayed := by
  intro env pre post hsh c p hbeq hjd hpre hpost
  obtain ⟨outPre, hPre⟩ := diff_blocks_ok env.json_diff env.render pre
  obtain ⟨outPost, hPost⟩ := diff_blocks_ok env.json_diff env.render post
  have hrjd : render_json_diff env.json_diff env.render c p = none := by
    unfold render_json_diff
    rcases hjd with hj | hj <;> rw [hj]
  have hmid : diff_blocks env.json_diff env.render (((hsh, c), p) :: post) =
      .ok ((hsh, none) :: outPost) := by
    simp [diff_blocks, hPost, hbeq, hrjd]
  have hall := diff_blocks_append env.json_diff env.render pre (((hsh, c), p) :: post)
    outPre ((hsh, none) :: outPost) hPre hmid
  refine ⟨outPre ++ (hsh, none) :: outPost, hall, by simp, ?_, ?_⟩
  · intro hdel
    obtain ⟨d, hd⟩ := process_loop_deleted_mem env _ hsh hdel
    rcases List.mem_append.mp hd with hmem | hmem
    · obtain ⟨q, hq, hq1⟩ := diff_blocks_mem_hash env.json_diff env.render pre outPre
        (hsh, some d) hPre hmem
      exact hpre q hq hq1
    · rcases List.mem_cons.mp hmem with hmem | hmem
      · rw [Prod.mk.injEq] at hmem
        cases hmem.2
      · obtain ⟨q, hq, hq1⟩ := diff_blocks_mem_hash env.json_diff env.render post outPost
          (hsh, some d) hPost hmem
        exact hpost q hq hq1
  · intro d hdisp
    have hd := process_loop_displayed_mem env _ hsh d hdisp
    rcases List.mem_append.mp hd with hmem | hmem
    · obtain ⟨q, hq, hq1⟩ := diff_blocks_mem_hash env.json_diff env.render pre outPre
        (hsh, some d) hPre hmem
      exact hpre q hq hq1
    · rcases List.mem_cons.mp hmem with hmem | hmem
      · rw [Prod.mk.injEq] at hmem
        cases hmem.2
      · obtain ⟨q, hq, hq1⟩ := diff_blocks_mem_hash env.json_diff env.render post outPost
          (hsh, some d) hPost hmem
        exact hpost q hq hq1

/-- C4 witness: a single unequal pair under a diff algorithm that reports no
delta gets the report `(hash, None)` and survives the report loop untouched. -/
theorem empty_diff_reported_nondivergent_witness :
    ∃ reports,
      diff_blocks envEqual.json_diff envEqual.render
        ([] ++ ((zeroHash, Json.bool true), Json.bool false) :: []) = .ok reports ∧
      (zeroHash, (none : Option String)) ∈ reports ∧
      zeroHash ∉ (process_loop envEqual reports).deleted ∧
      ∀ d, (zeroHash, d) ∉ (process_loop envEqual reports).displayed :=
  empty_diff_reported_nondivergent envEqual [] [] zeroHash (Json.bool true) (Json.bool false)
    rfl (Or.inl rfl) (by simp) (by simp)

/-- C8: in each of `by_hash`, `by_number` and `by_range`, a failing upstream
fetch makes the command return an error with no delete operation issued. -/
theorem no_deletions_when_fetch_fails :
    ∀ (env : Env),
      (∀ (block_hash : H256) (cached_block : Json) (e : String),
        get_single_item "block" (env.blocks block_hash) = .ok cached_block →
        fetch_provider_blocks env.block_by_hash [(block_hash, cached_block)] = .error e →
        (by_hash_run env block_hash).deleted = [] ∧
        ∃ m, (by_hash_run env block_hash).result = .error m) ∧
      (∀ (number : Int) (block_hash : H256) (cached_block : Json) (e : String),
        get_single_item "block hash" (env.block_hashes_by_block_number number) = .ok block_hash →
        get_single_item "block" (env.blocks block_hash) = .ok cached_block →
        fetch_provider_blocks env.block_by_hash [(block_hash, cached_block)] = .error e →
        (by_number_run env number).deleted = [] ∧
        ∃ m, (by_number_run env number).result = .error m) ∧
      (∀ (range : String) (cached_blocks : List (H256 × Json)) (e : String),
        by_range_resolve env range = .ok cached_blocks →
        fetch_provider_blocks env.block_by_hash cached_blocks = .error e →
        (by_range_run env range).deleted = [] ∧
        ∃ m, (by_range_run env range).result = .error m) := by
  intro env
  refine ⟨?_, ?_, ?_⟩
  · intro block_hash cached_block e hblock hfetch
    have hcmp : compare_blocks env [(block_hash, cached_block)] = .error e := by
      simp [compare_blocks, hfetch]
    constructor
    · simp [by_hash_run, hblock, hcmp, Except.mapError]
    · exact ⟨"Failed to compare blocks: " ++ e,
        by simp [by_hash_run, hblock, hcmp, Except.mapError]⟩
  · intro number block_hash cached_block e hnum hblock hfetch
    have hcmp : compare_blocks env [(block_hash, cached_block)] = .error e := by
      simp [compare_blocks, hfetch]
    constructor
    · simp [by_number_run, hnum, hblock, hcmp, Except.mapError]
    · exact ⟨"Failed to compare blocks: " ++ e,
        by simp [by_number_run, hnum, hblock, hcmp, Except.mapError]⟩
  · intro range cached_blocks e hres hfetch
    have hcmp : compare_blocks env cached_blocks = .error e := by
      simp [compare_blocks, hfetch]
    constructor
    · simp [by_range_run, hres, hcmp, Except.mapError]
    · exact ⟨"Failed to compare blocks: " ++ e,
        by simp [by_range_run, hres, hcmp, Except.mapError]⟩

/-- C8 witness: against a provider whose every fetch fails, `by_hash` on the
zero hash errors out and issues no delete. -/
theorem no_deletions_when_fetch_fails_witness :
    (by_hash_run envFetchFails zeroHash).deleted = [] ∧
    ∃ m, (by_hash_run envFetchFails zeroHash).result = .error m :=
  (no_deletions_when_fetch_fails envFetchFails).1 zeroHash Json.null
    "failed to fetch block: boom" rfl rfl

end FixBlock
